import Mathlib

/-!
Shallow embedding of the `namestore` in-memory storage engine (`memory.go`)
and proofs about its operations.

Modelling conventions:
* Byte slices (`[]byte`) become `List Nat`; Go's `nil` and empty slice both
  collapse to `[]`, so `clone` is the identity at the value level.
* `time.Time` instants become `Nat`; the zero `time.Time{}` (the
  no-expiration sentinel) becomes `none : Option Nat`, and `time.Duration`
  becomes `Int` (negative and zero durations are meaningful).
* Each operation takes the current instant `now : Nat` explicitly in place
  of `time.Now()`; within one call all reads of the clock see the same
  instant, matching the single-threaded view of one critical section.
* The Go map `map[string]entry` becomes an association list with unique
  keys; `m[k] = v` is `upsert`, `delete(m, k)` is `erase`, indexing is
  `lookup`.  Go strings are Lean `String`s; byte indexing and `len` agree
  with character indexing on the ASCII keys the engine manipulates.
-/

namespace Namestore

/-- Byte sequences (`[]byte`). -/
abbrev Bytes := List Nat

/-- The sentinel failures of `errors.go`: `ErrNotFound`, `ErrTypeMismatch`,
`ErrInvalidPattern`. -/
inductive Err where
  | notFound
  | typeMismatch
  | invalidPattern
deriving DecidableEq, Repr

/-- `entry` of `memory.go`: a value and an absolute expiration instant,
where `none` models the zero `time.Time` (no expiration). -/
structure Entry where
  value : Bytes
  expire : Option Nat
deriving DecidableEq, Repr

/-- The table `map[string]entry`, as an association list with unique keys. -/
abbrev Table := List (String × Entry)

/-- Go map indexing `m[k]` (comma-ok form). -/
def lookup {α : Type} : List (String × α) → String → Option α
  | [], _ => none
  | (k, v) :: rest, key => if k = key then some v else lookup rest key

/-- Go map assignment `m[k] = v`: replace the binding if present, else add it. -/
def upsert {α : Type} : List (String × α) → String → α → List (String × α)
  | [], key, v => [(key, v)]
  | (k, v0) :: rest, key, v =>
    if k = key then (k, v) :: rest else (k, v0) :: upsert rest key v

/-- Go `delete(m, k)`. -/
def erase {α : Type} : List (String × α) → String → List (String × α)
  | [], _ => []
  | (k, v) :: rest, key => if k = key then rest else (k, v) :: erase rest key

/-- `entry.expired` of `memory.go`: a zero expiration never expires, else
the entry is expired once `time.Now().After(e.expire)`, i.e. `now > t`. -/
def Entry.expired (e : Entry) (now : Nat) : Bool :=
  match e.expire with
  | none => false
  | some t => now > t

/-- `expiry` of `memory.go`: non-positive ttl gives the zero time (no
expiration), positive ttl gives `now + ttl`. -/
def expiry (now : Nat) (ttl : Int) : Option Nat :=
  if ttl ≤ 0 then none else some (now + ttl.toNat)

/-- `clone` of `memory.go`: a defensive copy.  Go returns `nil` for an
empty source and a fresh copy otherwise; at the value level both are the
identity. -/
def clone (src : Bytes) : Bytes := src

/-- The liveness invariant of the spec: a key is live iff an entry exists
for it and that entry is not expired. -/
def liveB (m : Table) (now : Nat) (k : String) : Bool :=
  match lookup m k with
  | some e => ! e.expired now
  | none => false

/-- `Memory.Set`: unconditionally stores a fresh copy of the value with
expiration computed from the ttl. -/
def set (m : Table) (now : Nat) (key : String) (value : Bytes) (ttl : Int) : Table :=
  upsert m key { value := clone value, expire := expiry now ttl }

/-- `Memory.Get`: optimistic read, then (single-threaded collapse of the
double-checked slow path) re-read, lazily deleting a discovered-expired
entry. -/
def get (m : Table) (now : Nat) (key : String) : Except Err Bytes × Table :=
  match lookup m key with
  | none => (.error .notFound, m)
  | some e =>
    if ¬ e.expired now then (.ok (clone e.value), m)
    else
      match lookup m key with
      | none => (.error .notFound, m)
      | some e2 =>
        if e2.expired now then (.error .notFound, erase m key)
        else (.ok (clone e2.value), m)

/-- `Memory.TTL`: remaining duration, `-1` when the key never expires,
`NotFound` (with lazy delete) when absent or expired. -/
def ttlOp (m : Table) (now : Nat) (key : String) : Except Err Int × Table :=
  match lookup m key with
  | none => (.error .notFound, m)
  | some e =>
    if e.expired now then (.error .notFound, erase m key)
    else
      match e.expire with
      | none => (.ok (-1), m)
      | some t => (.ok ((t : Int) - (now : Int)), m)

/-- `Memory.Expire`: reset the expiration on a live key; `NotFound` (with
lazy delete) when absent or expired. -/
def expireOp (m : Table) (now : Nat) (key : String) (ttl : Int) : Except Err Unit × Table :=
  match lookup m key with
  | none => (.error .notFound, m)
  | some e =>
    if e.expired now then (.error .notFound, erase m key)
    else (.ok (), upsert m key { e with expire := expiry now ttl })

/-- `Memory.Persist`: clear the expiration on a live key; `NotFound` (with
lazy delete) when absent or expired. -/
def persist (m : Table) (now : Nat) (key : String) : Except Err Unit × Table :=
  match lookup m key with
  | none => (.error .notFound, m)
  | some e =>
    if e.expired now then (.error .notFound, erase m key)
    else (.ok (), upsert m key { e with expire := none })

/-- Loop body of `Memory.MGet`: visit the requested keys in order, adding a
copy of each live value to the result map; expired and absent keys are
skipped (and, notably, never deleted). -/
def mgetGo (m : Table) (now : Nat) :
    List String → List (String × Bytes) → List (String × Bytes)
  | [], result => result
  | key :: rest, result =>
    match lookup m key with
    | some e =>
      if ¬ e.expired now then mgetGo m now rest (upsert result key (clone e.value))
      else mgetGo m now rest result
    | none => mgetGo m now rest result

/-- `Memory.MGet`: the partial result map together with the table after the
call (the loop performs no writes to the table). -/
def mget (m : Table) (now : Nat) (keys : List String) :
    List (String × Bytes) × Table :=
  (mgetGo m now keys [], m)

/-- `Memory.GetSet`: store the new value unconditionally; return the prior
live value, or `NotFound` after storing with the zero expiration when no
live entry existed.  On the live path only the value field is replaced. -/
def getSet (m : Table) (now : Nat) (key : String) (value : Bytes) :
    Except Err Bytes × Table :=
  match lookup m key with
  | none => (.error .notFound, upsert m key { value := clone value, expire := none })
  | some e =>
    if e.expired now then
      (.error .notFound, upsert (erase m key) key { value := clone value, expire := none })
    else
      (.ok (clone e.value), upsert m key { e with value := clone value })

/-- `Memory.CompareAndSwap`: swap in the new value and ttl only when a live
entry carries exactly the expected bytes; lazily delete a discovered-expired
entry before reporting failure. -/
def compareAndSwap (m : Table) (now : Nat) (key : String)
    (oldValue newValue : Bytes) (ttl : Int) : Bool × Table :=
  match lookup m key with
  | none => (false, m)
  | some e =>
    if e.expired now then (false, erase m key)
    else if e.value = oldValue then
      (true, upsert m key { value := clone newValue, expire := expiry now ttl })
    else (false, m)

/-- `binary.LittleEndian.Uint64` over an 8-byte slice: byte 0 is least
significant. -/
def uint64LE (bs : Bytes) : Nat :=
  bs.foldr (fun b acc => b + 256 * acc) 0

/-- `binary.LittleEndian.PutUint64`: the 8 little-endian bytes of a
`uint64`. -/
def putUint64LE (n : Nat) : Bytes :=
  (List.range 8).map (fun i => n / 256 ^ i % 256)

/-- Go's reinterpretation `int64(u)` of a `uint64` value `u < 2 ^ 64`. -/
def int64OfUint64 (u : Nat) : Int :=
  if u < 2 ^ 63 then (u : Int) else (u : Int) - 2 ^ 64

/-- Go's conversion `uint64(i)` of an `int64`: reduction modulo `2 ^ 64`. -/
def uint64OfInt64 (i : Int) : Nat :=
  (i % (2 ^ 64 : Int)).toNat

/-- Go `int64` addition: two's-complement wraparound modulo `2 ^ 64`. -/
def int64Add (a b : Int) : Int :=
  int64OfUint64 (uint64OfInt64 (a + b))

/-- `Memory.Incr`: lazily delete an expired entry, then treat the key as a
signed 64-bit counter starting at 0 when absent; a live value whose length
is not 8 bytes is a `TypeMismatch` and nothing is written.  An existing
entry keeps its expiration; a fresh counter entry has the zero
expiration. -/
def incr (m : Table) (now : Nat) (key : String) (delta : Int) :
    Except Err Int × Table :=
  match lookup m key with
  | some e =>
    if e.expired now then
      let newValue := int64Add 0 delta
      (.ok newValue,
        upsert (erase m key) key
          { value := putUint64LE (uint64OfInt64 newValue), expire := none })
    else if e.value.length ≠ 8 then (.error .typeMismatch, m)
    else
      let current := int64OfUint64 (uint64LE e.value)
      let newValue := int64Add current delta
      (.ok newValue,
        upsert m key { e with value := putUint64LE (uint64OfInt64 newValue) })
  | none =>
    let newValue := int64Add 0 delta
    (.ok newValue,
      upsert m key { value := putUint64LE (uint64OfInt64 newValue), expire := none })

/-- `Memory.Decr` delegates to `Incr` with the negated delta. -/
def decr (m : Table) (now : Nat) (key : String) (delta : Int) :
    Except Err Int × Table :=
  incr m now key (-delta)

/-- `filepath.Separator` on the engine's target platforms. -/
def sep : Char := '/'

/-- The leading-star loop of Go `path/filepath.scanChunk`: consume the
stars heading the pattern, remembering whether any was seen. -/
def dropStars : List Char → Bool × List Char
  | '*' :: rest => (true, (dropStars rest).2)
  | p => (false, p)

/-- The scan loop of Go `scanChunk`: split off the longest non-star leading
segment, treating a star inside a bracket class as literal and keeping the
character after a backslash. -/
def scanBody : List Char → Bool → List Char × List Char
  | [], _ => ([], [])
  | c :: rest, inrange =>
    if c = '\\' then
      match rest with
      | c2 :: rest2 =>
        let (chunk, p) := scanBody rest2 inrange
        (c :: c2 :: chunk, p)
      | [] => ([c], [])
    else if c = '[' then
      let (chunk, p) := scanBody rest true
      (c :: chunk, p)
    else if c = ']' then
      let (chunk, p) := scanBody rest false
      (c :: chunk, p)
    else if c = '*' then
      if ¬ inrange then ([], c :: rest)
      else
        let (chunk, p) := scanBody rest inrange
        (c :: chunk, p)
    else
      let (chunk, p) := scanBody rest inrange
      (c :: chunk, p)

/-- Go `getEsc`: one possibly-escaped character of a bracket class.  Fails
(`ErrBadPattern`) on an empty remainder, a leading `-` or `]`, a trailing
backslash, or when nothing follows the parsed character. -/
def getEsc (chunk : List Char) : Except Unit (Char × List Char) :=
  match chunk with
  | [] => .error ()
  | c :: rest =>
    if c = '-' ∨ c = ']' then .error ()
    else if c = '\\' then
      match rest with
      | [] => .error ()
      | r :: rest2 => if rest2 = [] then .error () else .ok (r, rest2)
    else if rest = [] then .error () else .ok (c, rest)

/-- The range loop of Go `matchChunk`'s bracket-class case: parse `lo-hi`
ranges until the closing `]` (which only closes once at least one range was
read), recording whether the examined character fell in any range.  Fuel is
the remaining chunk length; every iteration consumes at least one
character. -/
def classRanges (r : Char) (matched : Bool) (nrange : Nat) (chunk : List Char)
    (fuel : Nat) : Except Unit (List Char × Bool) :=
  match fuel with
  | 0 => .error ()
  | fuel + 1 =>
    if chunk.head? = some ']' ∧ nrange > 0 then .ok (chunk.tail, matched)
    else
      match getEsc chunk with
      | .error e => .error e
      | .ok (lo, chunk1) =>
        match (if chunk1.head? = some '-' then getEsc chunk1.tail else .ok (lo, chunk1)) with
        | .error e => .error e
        | .ok (hi, chunk2) =>
          classRanges r (matched ∨ (lo ≤ r ∧ r ≤ hi)) (nrange + 1) chunk2 fuel

/-- Go `matchChunk`: match a star-free chunk against the head of `s`,
returning the rest of `s` and whether it matched.  After a mismatch the
chunk is still parsed to the end so that a malformed pattern is always
reported.  Fuel is the remaining chunk length. -/
def matchChunk (fuel : Nat) (chunk s : List Char) (failed0 : Bool) :
    Except Unit (List Char × Bool) :=
  match fuel with
  | 0 => .error ()
  | fuel + 1 =>
    match chunk with
    | [] => if failed0 then .ok ([], false) else .ok (s, true)
    | c :: chunkRest =>
      let failed := failed0 || s.isEmpty
      if c = '[' then
        let r := if failed then Char.ofNat 0 else s.headD (Char.ofNat 0)
        let s1 := if failed then s else s.tail
        let negPair : Bool × List Char :=
          match chunkRest with
          | '^' :: rest => (true, rest)
          | _ => (false, chunkRest)
        match classRanges r false 0 negPair.2 (negPair.2.length + 1) with
        | .error e => .error e
        | .ok (chunk2, matched) =>
          matchChunk fuel chunk2 s1 (if matched = negPair.1 then true else failed)
      else if c = '?' then
        if failed then matchChunk fuel chunkRest s true
        else matchChunk fuel chunkRest s.tail (s.headD (Char.ofNat 0) = sep)
      else if c = '\\' then
        match chunkRest with
        | [] => .error ()
        | c2 :: rest2 =>
          if failed then matchChunk fuel rest2 s true
          else matchChunk fuel rest2 s.tail (¬ c2 = s.headD (Char.ofNat 0))
      else
        if failed then matchChunk fuel chunkRest s true
        else matchChunk fuel chunkRest s.tail (¬ c = s.headD (Char.ofNat 0))

/-- The star loop of Go `Match`: after a failed chunk match under a star,
retry the chunk at every later position of `name`, stopping at a separator;
returns the remainder to continue with, or `none` when no position
works. -/
def starLoop (chunk rest : List Char) : List Char → Except Unit (Option (List Char))
  | [] => .ok none
  | c :: nameRest =>
    if c = sep then .ok none
    else
      match matchChunk (chunk.length + 1) chunk nameRest false with
      | .error e => .error e
      | .ok (t, ok) =>
        if ok then
          if rest = [] ∧ t ≠ [] then starLoop chunk rest nameRest
          else .ok (some t)
        else starLoop chunk rest nameRest

/-- The final loop of Go `Match`: before returning a no-error mismatch,
check that the rest of the pattern is syntactically valid by matching each
remaining chunk against the empty string.  Fuel is the remaining pattern
length; every iteration consumes at least one character. -/
def validateRest (fuel : Nat) (pattern : List Char) : Except Unit Bool :=
  match fuel with
  | 0 => .error ()
  | fuel + 1 =>
    match pattern with
    | [] => .ok false
    | _ =>
      let (_, rest0) := dropStars pattern
      let (chunk, rest) := scanBody rest0 false
      match matchChunk (chunk.length + 1) chunk [] false with
      | .error e => .error e
      | .ok _ => validateRest fuel rest

/-- The outer loop of Go `path/filepath.Match`.  Fuel is the remaining
pattern length; every iteration consumes at least one pattern character. -/
def matchGo (fuel : Nat) (pattern name : List Char) : Except Unit Bool :=
  match fuel with
  | 0 => .error ()
  | fuel + 1 =>
    match pattern with
    | [] => .ok name.isEmpty
    | _ =>
      let (star, rest0) := dropStars pattern
      let (chunk, rest) := scanBody rest0 false
      if star ∧ chunk = [] then .ok (¬ name.contains sep)
      else
        match matchChunk (chunk.length + 1) chunk name false with
        | .error e => .error e
        | .ok (t, ok) =>
          if ok ∧ (t = [] ∨ rest ≠ []) then matchGo fuel rest t
          else if star then
            match starLoop chunk rest name with
            | .error e => .error e
            | .ok (some t2) => matchGo fuel rest t2
            | .ok none => validateRest (rest.length + 1) rest
          else validateRest (rest.length + 1) rest

/-- Go `path/filepath.Match(pattern, name)`: `Except.error` is
`ErrBadPattern`. -/
def filepathMatch (pattern name : String) : Except Unit Bool :=
  matchGo (pattern.length + 1) pattern.toList name.toList

/-- Go `strings.HasPrefix`, over the character lists of the strings. -/
def hasPrefixStr (s p : String) : Bool :=
  p.toList.isPrefixOf s.toList

/-- Go string slicing `s[n:]`, over the character list (byte indexing and
character indexing agree on the ASCII keys the engine manipulates). -/
def dropStr (s : String) (n : Nat) : String :=
  { data := s.toList.drop n }

/-- Loop body of `Memory.Keys`: iterate the table (list order standing in
for Go's map iteration order), keep keys under `pre ++ ":"` whose suffix
matches the pattern (an empty or `"*"` pattern matches everything, a
malformed pattern aborts with `InvalidPattern`), and of those the ones
whose entry is live.  No deletion happens. -/
def keysGo (m : Table) (now : Nat) (pre pattern : String) :
    List (String × Entry) → Except Err (List String)
  | [] => .ok []
  | (key, _) :: rest =>
    if ¬ hasPrefixStr key (pre ++ ":") then keysGo m now pre pattern rest
    else if pattern ≠ "" ∧ pattern ≠ "*" then
      match filepathMatch pattern (dropStr key (pre.length + 1)) with
      | .error _ => .error .invalidPattern
      | .ok matched =>
        if ¬ matched then keysGo m now pre pattern rest
        else
          let e := (lookup m key).getD { value := [], expire := none }
          if ¬ e.expired now then (key :: ·) <$> keysGo m now pre pattern rest
          else keysGo m now pre pattern rest
    else
      let e := (lookup m key).getD { value := [], expire := none }
      if ¬ e.expired now then (key :: ·) <$> keysGo m now pre pattern rest
      else keysGo m now pre pattern rest

/-- `Memory.Keys`: all live keys under the prefix whose suffix matches the
glob pattern; the table is not modified. -/
def keysOp (m : Table) (now : Nat) (pre pattern : String) : Except Err (List String) :=
  keysGo m now pre pattern m

/-- Projection telling whether a match result is `ErrBadPattern`. -/
def isBad (r : Except Unit Bool) : Bool :=
  match r with
  | .error _ => true
  | .ok _ => false

theorem lookup_upsert {α : Type} (m : List (String × α)) (k : String) (v : α) :
    lookup (upsert m k v) k = some v := by
  induction m with
  | nil => simp [upsert, lookup]
  | cons p rest ih =>
    obtain ⟨k0, v0⟩ := p
    by_cases h : k0 = k <;> simp [upsert, lookup, h, ih]

theorem lookup_upsert_ne {α : Type} (m : List (String × α)) (k k' : String) (v : α)
    (h : k ≠ k') : lookup (upsert m k v) k' = lookup m k' := by
  induction m with
  | nil => simp [upsert, lookup, h]
  | cons p rest ih =>
    obtain ⟨k0, v0⟩ := p
    by_cases h0 : k0 = k
    · subst h0
      simp [upsert, lookup, h]
    · simp [upsert, lookup, h0, ih]

/-- C5: `Incr(k, 1)` on a live key whose stored 8-byte value decodes to the
maximum signed 64-bit integer succeeds and returns the minimum signed
64-bit integer (two's-complement wraparound), not an error. -/
theorem incr_max_wraps (m : Table) (now : Nat) (k : String) (e : Entry)
    (hl : lookup m k = some e) (hlive : e.expired now = false)
    (hlen : e.value.length = 8) (hdec : uint64LE e.value = 2 ^ 63 - 1) :
    (incr m now k 1).1 = .ok (-(2 ^ 63)) := by
  unfold incr
  rw [hl]
  simp [hlive, hlen, hdec, int64Add, int64OfUint64, uint64OfInt64]

/-- Witness for C5 at a concrete one-entry table. -/
theorem incr_max_wraps_w :
    (incr [("c", { value := putUint64LE (2 ^ 63 - 1), expire := none })] 0 "c" 1).1 =
      .ok (-(2 ^ 63)) :=
  incr_max_wraps _ 0 "c" { value := putUint64LE (2 ^ 63 - 1), expire := none }
    (by decide) (by decide) (by decide) (by decide)

/-- C6: a successful `Incr` never changes the expiration of the key: a live
entry keeps its expiration and only its 8-byte value is replaced, while a
fresh (or lazily recreated) counter entry carries the no-expiration
sentinel. -/
theorem incr_keeps_expire (m : Table) (now : Nat) (k : String) (delta r : Int)
    (m' : Table) (h : incr m now k delta = (.ok r, m')) :
    lookup m' k =
      some { value := putUint64LE (uint64OfInt64 r)
           , expire := match lookup m k with
                       | some e => if e.expired now then none else e.expire
                       | none => none } := by
  unfold incr at h
  split at h
  next e hl =>
    split at h
    next hexp =>
      simp only [Prod.mk.injEq, Except.ok.injEq] at h
      rw [← h.2, ← h.1, lookup_upsert]
      simp [hl, hexp]
    next hexp =>
      split at h
      next hlen => simp at h
      next hlen =>
        simp only [Prod.mk.injEq, Except.ok.injEq] at h
        rw [← h.2, ← h.1, lookup_upsert]
        simp [hl, hexp]
  next hl =>
    simp only [Prod.mk.injEq, Except.ok.injEq] at h
    rw [← h.2, ← h.1, lookup_upsert]

/-- Witness for C6: incrementing a live counter that has a pending
expiration leaves that expiration in place. -/
theorem incr_keeps_expire_w :
    lookup (incr [("c", { value := putUint64LE 5, expire := some 99 })] 0 "c" 3).2 "c" =
      some { value := putUint64LE (uint64OfInt64 8), expire := some 99 } :=
  incr_keeps_expire [("c", { value := putUint64LE 5, expire := some 99 })] 0 "c" 3 8
    (incr [("c", { value := putUint64LE 5, expire := some 99 })] 0 "c" 3).2 rfl

/-- C8: `GetSet(k, v)` on a key with no live entry signals `NotFound` and
nonetheless stores `v`, so a following `Get(k)` (at any instant) returns
`v`: the `NotFound` reports prior absence, not failure of the write. -/
theorem getSet_absent_stores (m : Table) (now now2 : Nat) (k : String)
    (v : Bytes) (h : liveB m now k = false) :
    (getSet m now k v).1 = .error .notFound ∧
    (get (getSet m now k v).2 now2 k).1 = .ok (clone v) := by
  unfold liveB at h
  unfold getSet get
  cases hl : lookup m k with
  | none => simp [lookup_upsert, clone, Entry.expired]
  | some e =>
    rw [hl] at h
    simp at h
    simp [h, lookup_upsert, clone]
    simp [Entry.expired]

/-- Witness for C8: `GetSet` on an absent key, then `Get`. -/
theorem getSet_absent_stores_w :
    (getSet [] 0 "x" [7] ).1 = .error .notFound ∧
    (get (getSet [] 0 "x" [7]).2 3 "x").1 = .ok (clone [7]) :=
  getSet_absent_stores [] 0 3 "x" [7] (by decide)

/-- C9: `Incr` on a live entry whose value is not exactly 8 bytes fails
with `TypeMismatch` and returns the table completely unchanged. -/
theorem incr_type_mismatch (m : Table) (now : Nat) (k : String) (delta : Int)
    (e : Entry) (hl : lookup m k = some e) (hlive : e.expired now = false)
    (hlen : e.value.length ≠ 8) :
    incr m now k delta = (.error .typeMismatch, m) := by
  unfold incr
  rw [hl]
  simp [hlive, hlen]

/-- Witness for C9: a live 2-byte value rejects `Incr` without mutation. -/
theorem incr_type_mismatch_w :
    incr [("k", { value := [1, 2], expire := none })] 0 "k" 4 =
      (.error .typeMismatch, [("k", { value := [1, 2], expire := none })]) :=
  incr_type_mismatch _ 0 "k" 4 { value := [1, 2], expire := none }
    (by decide) (by decide) (by decide)

/-- C10: on a live key, `Expire` with a non-positive ttl clears the
expiration, agreeing with `Persist` both in result and resulting table, and
`TTL` afterwards (at any instant) reports the no-expiration sentinel. -/
theorem expire_nonpos_persists (m : Table) (now : Nat) (k : String) (ttl : Int)
    (hlive : liveB m now k = true) (httl : ttl ≤ 0) :
    expireOp m now k ttl = persist m now k ∧
    ∀ now2, (ttlOp (expireOp m now k ttl).2 now2 k).1 = .ok (-1) := by
  unfold liveB at hlive
  cases hl : lookup m k with
  | none => rw [hl] at hlive; simp at hlive
  | some e =>
    rw [hl] at hlive
    simp at hlive
    constructor
    · unfold expireOp persist
      rw [hl]
      simp [hlive, expiry, httl]
    · intro now2
      unfold expireOp ttlOp
      rw [hl]
      simp [hlive, lookup_upsert, expiry, httl]
      simp [Entry.expired]

/-- Witness for C10: clearing the ttl of a live key with ttl 0. -/
theorem expire_nonpos_persists_w :
    expireOp [("k", { value := [1], expire := some 50 })] 0 "k" 0 =
      persist [("k", { value := [1], expire := some 50 })] 0 "k" ∧
    (ttlOp (expireOp [("k", { value := [1], expire := some 50 })] 0 "k" 0).2 77 "k").1 =
      .ok (-1) := by
  have h := expire_nonpos_persists [("k", { value := [1], expire := some 50 })]
    0 "k" 0 (by decide) (by decide)
  exact ⟨h.1, h.2 77⟩

/-- C1 counterexample: on a live entry with a pending expiration,
`GetSet` stores the new value but keeps the pending expiration; the stored
entry does not carry the no-expiration sentinel as claimed. -/
theorem getSet_keeps_pending_expire_cx :
    liveB [("a", { value := [1], expire := some 100 })] 0 "a" = true ∧
    lookup (getSet [("a", { value := [1], expire := some 100 })] 0 "a" [2]).2 "a" =
      some { value := [2], expire := some 100 } ∧
    (lookup (getSet [("a", { value := [1], expire := some 100 })] 0 "a" [2]).2 "a").map
      Entry.expire ≠ some none := by
  decide

/-- C1 (amended): `GetSet(k, v)` always unconditionally stores `v`; the
stored expiration is the no-expiration sentinel when no live entry existed
for `k`, and is the prior entry's expiration, preserved unchanged, when a
live entry existed. -/
theorem getSet_stores (m : Table) (now : Nat) (k : String) (v : Bytes) :
    lookup (getSet m now k v).2 k =
      some { value := clone v
           , expire := match lookup m k with
                       | some e => if e.expired now then none else e.expire
                       | none => none } := by
  unfold getSet
  cases hl : lookup m k with
  | none => simp [lookup_upsert]
  | some e =>
    cases he : e.expired now with
    | true => simp [he, lookup_upsert]
    | false => simp [he, lookup_upsert]

/-- C2 counterexample: `MGet` over a key bound to an expired entry omits
the key from the result but leaves the expired entry in the table. -/
theorem mget_no_lazy_delete_cx :
    (mget [("k", { value := [1], expire := some 5 })] 10 ["k"]).1 = [] ∧
    (mget [("k", { value := [1], expire := some 5 })] 10 ["k"]).2 =
      [("k", { value := [1], expire := some 5 })] ∧
    Entry.expired { value := [1], expire := some 5 } 10 = true := by
  decide

theorem mgetGo_dead (m : Table) (now : Nat) (k : String) (h : liveB m now k = false) :
    ∀ (keys : List String) (acc : List (String × Bytes)),
      lookup (mgetGo m now keys acc) k = lookup acc k := by
  intro keys
  induction keys with
  | nil => intro acc; rfl
  | cons key rest ih =>
    intro acc
    simp only [mgetGo]
    cases hl : lookup m key with
    | none => exact ih acc
    | some e =>
      cases he : e.expired now with
      | true =>
        simp only [he]
        exact ih acc
      | false =>
        have hkk : key ≠ k := by
          intro hk
          subst hk
          unfold liveB at h
          rw [hl] at h
          simp [he] at h
        simp [he]
        rw [ih (upsert acc key (clone e.value)), lookup_upsert_ne acc key k _ hkk]

/-- C2 (amended): `MGet` silently omits absent and expired keys from the
returned map, but performs no lazy deletion: the table after the call is
identical to the table before it. -/
theorem mget_omits_but_keeps (m : Table) (now : Nat) (keys : List String) :
    (mget m now keys).2 = m ∧
    ∀ k, liveB m now k = false → lookup (mget m now keys).1 k = none := by
  refine ⟨rfl, fun k h => ?_⟩
  simp only [mget]
  rw [mgetGo_dead m now k h keys []]
  rfl

/-- Witness for C2 (amended) at a concrete expired entry. -/
theorem mget_omits_but_keeps_w :
    (mget [("k", { value := [1], expire := some 5 })] 10 ["k", "z"]).2 =
      [("k", { value := [1], expire := some 5 })] ∧
    lookup (mget [("k", { value := [1], expire := some 5 })] 10 ["k", "z"]).1 "k" = none :=
  ⟨(mget_omits_but_keeps [("k", { value := [1], expire := some 5 })] 10 ["k", "z"]).1,
   (mget_omits_but_keeps [("k", { value := [1], expire := some 5 })] 10 ["k", "z"]).2
     "k" (by decide)⟩

/-- C4 counterexample: on an expired entry, `CompareAndSwap` returns false
but removes the entry, so the table state for the key is not left
completely unchanged (even though the expected bytes are the stored
ones). -/
theorem cas_deletes_expired_cx :
    lookup ([("k", { value := [1], expire := some 5 })] : Table) "k" =
      some { value := [1], expire := some 5 } ∧
    compareAndSwap [("k", { value := [1], expire := some 5 })] 10 "k" [1] [2] 0 =
      (false, []) ∧
    lookup (compareAndSwap [("k", { value := [1], expire := some 5 })] 10 "k" [1] [2] 0).2
      "k" ≠ lookup ([("k", { value := [1], expire := some 5 })] : Table) "k" := by
  decide

/-- C4 (amended): `CompareAndSwap` succeeds exactly when a live entry holds
byte-for-byte the expected value; success replaces value and ttl; failure
leaves the table unchanged except that a discovered-expired entry for the
key is lazily deleted. -/
theorem cas_spec (m : Table) (now : Nat) (k : String) (old new : Bytes) (ttl : Int) :
    ((compareAndSwap m now k old new ttl).1 = true ↔
      ∃ e, lookup m k = some e ∧ e.expired now = false ∧ e.value = old) ∧
    ((compareAndSwap m now k old new ttl).1 = true →
      lookup (compareAndSwap m now k old new ttl).2 k =
        some { value := clone new, expire := expiry now ttl }) ∧
    ((compareAndSwap m now k old new ttl).1 = false →
      (compareAndSwap m now k old new ttl).2 = m ∨
      ((compareAndSwap m now k old new ttl).2 = erase m k ∧
        ∃ e, lookup m k = some e ∧ e.expired now = true)) := by
  unfold compareAndSwap
  cases hl : lookup m k with
  | none => simp
  | some e =>
    cases he : e.expired now with
    | true => simp [he]
    | false =>
      by_cases hv : e.value = old
      · simp [he, hv, lookup_upsert]
      · simp [he, hv]

/-- Witness for C4 (amended): a successful swap on a live matching key. -/
theorem cas_spec_w :
    lookup (compareAndSwap [("k", { value := [1], expire := none })] 0 "k" [1] [2] 5).2
      "k" = some { value := clone [2], expire := expiry 0 5 } :=
  (cas_spec [("k", { value := [1], expire := none })] 0 "k" [1] [2] 5).2.1 (by decide)

/-- C3 counterexample: with no key under the prefix in the table, `Keys`
with a malformed pattern returns success with no results instead of the
`InvalidPattern` failure (the matcher is never consulted). -/
theorem keys_bad_pattern_cx :
    keysOp [] 0 "p" "[invalid" = .ok [] ∧
    isBad (filepathMatch "[invalid" "x") = true :=
  ⟨rfl, by decide⟩

theorem keysGo_bad (m : Table) (now : Nat) (pre pattern : String)
    (hp : pattern ≠ "" ∧ pattern ≠ "*") :
    ∀ l : List (String × Entry),
      (∃ p ∈ l, hasPrefixStr p.1 (pre ++ ":") = true) →
      (∀ p ∈ l, hasPrefixStr p.1 (pre ++ ":") = true →
        isBad (filepathMatch pattern (dropStr p.1 (pre.length + 1))) = true) →
      keysGo m now pre pattern l = .error .invalidPattern := by
  intro l
  induction l with
  | nil =>
    intro hex _
    simp at hex
  | cons q rest ih =>
    obtain ⟨key, ev⟩ := q
    intro hex herr
    by_cases hq : hasPrefixStr key (pre ++ ":") = true
    · have hb := herr (key, ev) (by simp) hq
      cases hm : filepathMatch pattern (dropStr key (pre.length + 1)) with
      | error u => simp [keysGo, hq, hp.1, hp.2, hm]
      | ok b =>
        rw [hm] at hb
        simp [isBad] at hb
    · have hex2 : ∃ p ∈ rest, hasPrefixStr p.1 (pre ++ ":") = true := by
        obtain ⟨p, hmem, hps⟩ := hex
        rcases List.mem_cons.mp hmem with rfl | hmem2
        · exact absurd hps hq
        · exact ⟨p, hmem2, hps⟩
      simp only [keysGo, hq]
      simp only [Bool.not_eq_true] at hq
      simp [hq]
      exact ih hex2 (fun p hm2 hs => herr p (List.mem_cons_of_mem _ hm2) hs)

/-- C3 (amended): with a malformed glob pattern (one the matcher rejects on
every suffix it would examine, e.g. a pattern that fails to compile), and
at least one key under the prefix present in the table, `Keys` returns the
`InvalidPattern` failure and no partial results; when no key under the
prefix exists, the pattern is never examined and `Keys` succeeds with an
empty result. -/
theorem keys_bad_pattern (m : Table) (now : Nat) (pre pattern : String)
    (hp1 : pattern ≠ "") (hp2 : pattern ≠ "*")
    (hex : ∃ p ∈ m, hasPrefixStr p.1 (pre ++ ":") = true)
    (herr : ∀ p ∈ m, hasPrefixStr p.1 (pre ++ ":") = true →
      isBad (filepathMatch pattern (dropStr p.1 (pre.length + 1))) = true) :
    keysOp m now pre pattern = .error .invalidPattern :=
  keysGo_bad m now pre pattern ⟨hp1, hp2⟩ m hex herr

/-- Witness for C3 (amended): one prefixed key and the pattern
`"[invalid"`. -/
theorem keys_bad_pattern_w :
    keysOp [("p:x", { value := [1], expire := none })] 0 "p" "[invalid" =
      .error .invalidPattern :=
  keys_bad_pattern [("p:x", { value := [1], expire := none })] 0 "p" "[invalid"
    (by decide) (by decide)
    ⟨("p:x", { value := [1], expire := none }), by simp, by decide⟩
    (by decide)

/-- C7: after calling Set with a non-positive ttl, TTL reports the
no-expiration sentinel `-1` (no error), at any later instant. -/
theorem set_nonpos_ttl_sentinel (m : Table) (now now2 : Nat) (k : String)
    (v : Bytes) (ttl : Int) (h : ttl ≤ 0) :
    (ttlOp (set m now k v ttl) now2 k).1 = .ok (-1) := by
  unfold set ttlOp
  rw [lookup_upsert]
  simp [expiry, h, Entry.expired]

/-- Witness for C7 at a concrete input. -/
theorem set_nonpos_ttl_sentinel_w :
    (ttlOp (set [] 0 "a" [49] 0) 5 "a").1 = .ok (-1) :=
  set_nonpos_ttl_sentinel [] 0 5 "a" [49] 0 (by decide)

end Namestore
